import Mathlib

/-!
Shallow embedding of `src/chess_rankings_service.py` (PMafra/chess-rankings).

Dates are represented by their proleptic-Gregorian ordinal (an `Int`), exactly
as Python `datetime.date` objects behave under `timedelta` arithmetic and
comparison; the civil (year, month, day) view and the conversion used by
`datetime.date.toordinal` are embedded below so that calendar-level statements
(month/year boundaries, validity of observations) can be made about the same
ordinals.  Python dicts keyed by dates are embedded as association lists with
Python's insertion semantics (overwrite in place, append when new).
-/

namespace ChessRankings

/-- Leap-year test, as in Python `datetime`: divisible by 4 and (not by 100 or by 400). -/
def isLeapYear (y : Nat) : Bool :=
  decide (y % 4 = 0 ∧ (y % 100 ≠ 0 ∨ y % 400 = 0))

/-- Number of days of month `m` (1..12) of year `y`, as in Python `datetime`. -/
def daysInMonth (y m : Nat) : Nat :=
  if m = 2 then (if isLeapYear y then 29 else 28)
  else if m = 4 ∨ m = 6 ∨ m = 9 ∨ m = 11 then 30
  else 31

/-- Number of days before January 1st of year `y` (Python `_days_before_year`). -/
def daysBeforeYear (y : Nat) : Nat :=
  365 * (y - 1) + (y - 1) / 4 - (y - 1) / 100 + (y - 1) / 400

/-- Number of days of year `y` that precede the first day of month `m`
(Python `_days_before_month`). -/
def daysBeforeMonth (y : Nat) : Nat → Nat
  | 0 => 0
  | 1 => 0
  | m + 2 => daysBeforeMonth y (m + 1) + daysInMonth y (m + 1)

/-- A civil calendar date, the (year, month, day) view of a Python `date`. -/
structure CivilDate where
  year : Nat
  month : Nat
  day : Nat
deriving DecidableEq

/-- The constraints under which Python `datetime(y, m, d)` succeeds
(upper year bound 9999 omitted here; it is enforced in `validYMD` below). -/
def validCivil (c : CivilDate) : Prop :=
  1 ≤ c.year ∧ 1 ≤ c.month ∧ c.month ≤ 12 ∧ 1 ≤ c.day ∧ c.day ≤ daysInMonth c.year c.month

instance (c : CivilDate) : Decidable (validCivil c) := by
  unfold validCivil; infer_instance

/-- The successor calendar day, rolling over month and year boundaries. -/
def nextCivil (c : CivilDate) : CivilDate :=
  if c.day < daysInMonth c.year c.month then ⟨c.year, c.month, c.day + 1⟩
  else if c.month < 12 then ⟨c.year, c.month + 1, 1⟩
  else ⟨c.year + 1, 1, 1⟩

/-- Python `date.toordinal`: days since 0001-01-00 of a civil date. -/
def civilOrdinal (c : CivilDate) : Nat :=
  daysBeforeYear c.year + daysBeforeMonth c.year c.month + c.day

/-- The check performed by Python `datetime(year, month, day)` on `Int` inputs
(`MINYEAR = 1`, `MAXYEAR = 9999`, day within the month). -/
def validYMD (y m d : Int) : Bool :=
  decide (1 ≤ y ∧ y ≤ 9999 ∧ 1 ≤ m ∧ m ≤ 12 ∧ 1 ≤ d ∧
    d ≤ (daysInMonth y.toNat m.toNat : Int))

/-! ### Python dict model (association list, insertion semantics) -/

/-- `m.get(k)` / `m[k]` / `k in m` on a Python dict modelled as an association list. -/
def mapGet {κ ν : Type} [DecidableEq κ] (m : List (κ × ν)) (k : κ) : Option ν :=
  match m with
  | [] => none
  | p :: rest => if p.1 = k then some p.2 else mapGet rest k

/-- `m[k] = v` on a Python dict: overwrite in place if present, append if new. -/
def mapInsert {κ ν : Type} [DecidableEq κ] (m : List (κ × ν)) (k : κ) (v : ν) :
    List (κ × ν) :=
  match m with
  | [] => [(k, v)]
  | p :: rest => if p.1 = k then (k, v) :: rest else p :: mapInsert rest k v

/-- A date→rating dict (`rating_dict` in the source), keyed by date ordinals. -/
abbrev RatingMap : Type := List (Int × Int)

/-- `rating_dict.keys()`. -/
def mapDates (m : RatingMap) : List Int := m.map (fun p => p.1)

instance {ε α : Type} [DecidableEq ε] [DecidableEq α] : DecidableEq (Except ε α) :=
  fun a b =>
    match a, b with
    | .ok x, .ok y =>
      if h : x = y then .isTrue (by rw [h]) else .isFalse (by simp [h])
    | .ok _, .error _ => .isFalse (by simp)
    | .error _, .ok _ => .isFalse (by simp)
    | .error x, .error y =>
      if h : x = y then .isTrue (by rw [h]) else .isFalse (by simp [h])

/-! ### Error taxonomy of the source -/

/-- The `ChessRankingsServiceError` hierarchy of the source, one constructor per
subclass; payloads kept where a claim mentions them. -/
inductive ChessError
  /-- `APIError` (the ProviderError kind): transport/HTTP failure, carries the URL. -/
  | apiError (url : String)
  /-- `PlayerNotFoundError` (the NoPlayersFoundError kind). -/
  | playerNotFound
  /-- `RatingHistoryNotFoundError(username)`. -/
  | ratingHistoryNotFound (username : String)
  /-- `ClassicalRatingNotFoundError(username)` (the CategoryNotFoundError kind). -/
  | classicalRatingNotFound (username : String)
deriving DecidableEq

/-- Any exception a per-player computation can raise: either a member of the
service's own hierarchy, or Python's `ValueError` raised by `datetime(...)` on a
malformed observation (the MalformedObservationError kind), which is *not* a
`ChessRankingsServiceError`. -/
inductive PyError
  | service (e : ChessError)
  | valueError
deriving DecidableEq

/-! ### Provider payloads -/

/-- One raw observation tuple `(year, zero-indexed month, day, rating)`. -/
structure RawPoint where
  year : Int
  month : Int
  day : Int
  rating : Int
deriving DecidableEq

/-- One entry of the rating-history payload: `{name: ..., points: ...}` with
either field possibly missing. -/
structure Variant where
  name : Option String
  points : Option (List RawPoint)
deriving DecidableEq

/-- One entry of the leaderboard payload; the `username` field may be missing. -/
structure Player where
  username : Option String
deriving DecidableEq

/-- The leaderboard payload `{users: [...]}`; the `users` key may be missing. -/
structure UsersPayload where
  users : Option (List Player)
deriving DecidableEq

/-- Outcome of `_fetch_json`: a transport failure (any of `RequestException`,
`HTTPError`, `Timeout`, turned into `APIError` with the request URL), or a
successfully parsed JSON body, which may be `null` (`none`). -/
inductive FetchOutcome (α : Type)
  | failure (url : String)
  | success (data : Option α)
deriving DecidableEq

/-! ### Service functions (one Lean def per Python method) -/

/-- `_get_top_players_usernames`: raise `PlayerNotFoundError` when the body is
`None` or has no `users` key or the list is empty; otherwise keep, in order, the
usernames that are present and non-empty. -/
def getTopPlayersUsernames (fetch : FetchOutcome UsersPayload) :
    Except ChessError (List String) :=
  match fetch with
  | .failure url => .error (.apiError url)
  | .success none => .error .playerNotFound
  | .success (some payload) =>
    match payload.users with
    | none => .error .playerNotFound
    | some players =>
      if players = [] then .error .playerNotFound
      else .ok (players.filterMap (fun p =>
        match p.username with
        | some s => if s = "" then none else some s
        | none => none))

/-- `_get_player_rating_history`: transport failure becomes `APIError`; a `None`
body raises `RatingHistoryNotFoundError(username)`; any other body is returned. -/
def getPlayerRatingHistory (fetch : FetchOutcome (List Variant)) (username : String) :
    Except ChessError (List Variant) :=
  match fetch with
  | .failure url => .error (.apiError url)
  | .success none => .error (.ratingHistoryNotFound username)
  | .success (some data) => .ok data

/-- `_extract_classical_rating_history`: first variant named `"Classical"` wins,
its `points` defaulting to `[]`; otherwise `ClassicalRatingNotFoundError`. -/
def extractClassicalRatingHistory (ratingData : List Variant) (username : String) :
    Except ChessError (List RawPoint) :=
  match ratingData with
  | [] => .error (.classicalRatingNotFound username)
  | v :: rest =>
    if v.name = some "Classical" then .ok (v.points.getD [])
    else extractClassicalRatingHistory rest username

/-- The date ordinal built from a raw point by
`datetime(year, month + 1, day).date()` (month is zero-indexed upstream). -/
def pointDate (p : RawPoint) : Int :=
  (civilOrdinal ⟨p.year.toNat, (p.month + 1).toNat, p.day.toNat⟩ : Nat)

/-- The loop body of `_build_date_to_rating_mapping`, threading the dict. -/
def buildAux (m : RatingMap) : List RawPoint → Except PyError RatingMap
  | [] => .ok m
  | p :: ps =>
    if validYMD p.year (p.month + 1) p.day then
      buildAux (mapInsert m (pointDate p) p.rating) ps
    else .error .valueError

/-- `_build_date_to_rating_mapping`: fold the observations into a dict; an
invalid calendar date makes `datetime(...)` raise `ValueError`. -/
def buildDateToRatingMapping (classicalHistory : List RawPoint) :
    Except PyError RatingMap :=
  buildAux [] classicalHistory

/-- `_get_first_rating_before_date`: the rating at the maximum key strictly
before `target`, or `None` when no key is before `target`. -/
def getFirstRatingBeforeDate (m : RatingMap) (target : Int) : Option Int :=
  let datesBeforeTarget := (mapDates m).filter (fun d => d < target)
  match datesBeforeTarget.max? with
  | some mostRecentDate => mapGet m mostRecentDate
  | none => none

/-- `[today - timedelta(days=i) for i in range(30, -1, -1)]`. -/
def last30Days (today : Int) : List Int :=
  ((List.range 31).reverse).map (fun (i : Nat) => today - (i : Int))

/-- One iteration of the fill loop: `if date in rating_dict: last_known = rating_dict[date]`. -/
def updateCarry (m : RatingMap) (d : Int) (carry : Option Int) : Option Int :=
  match mapGet m d with
  | some r => some r
  | none => carry

/-- The fill loop of `_generate_last_30_days_ratings`, appending the carried
rating for each day. -/
def forwardFill (m : RatingMap) : Option Int → List Int → List (Option Int)
  | _, [] => []
  | carry, d :: ds => updateCarry m d carry :: forwardFill m (updateCarry m d carry) ds

/-- `_generate_last_30_days_ratings` with the reference date (`datetime.now().date()`)
made an explicit parameter `today`. -/
def generateLast30DaysRatings (m : RatingMap) (today : Int) : List (Option Int) :=
  let days := last30Days today
  let startDate := days.getD 0 0
  let initialRating :=
    match mapGet m startDate with
    | some r => some r
    | none => getFirstRatingBeforeDate m startDate
  forwardFill m initialRating days

/-- `_get_last_30_days_classical_ratings_for_player`: the per-player pipeline,
with the provider response injected as a `FetchOutcome`.  Errors of the service
hierarchy are tagged `PyError.service`; the `ValueError` from a malformed
observation stays `PyError.valueError`. -/
def getLast30DaysClassicalRatings (fetch : FetchOutcome (List Variant))
    (username : String) (today : Int) : Except PyError (List (Option Int)) :=
  match getPlayerRatingHistory fetch username with
  | .error e => .error (.service e)
  | .ok ratingData =>
    match extractClassicalRatingHistory ratingData username with
    | .error e => .error (.service e)
    | .ok classicalHistory =>
      match buildDateToRatingMapping classicalHistory with
      | .error e => .error e
      | .ok m => .ok (generateLast30DaysRatings m today)

/-! ### The bulk-export batch (`generate_rating_csv_for_top_50_classical_players`) -/

/-- One collected row: `(username, ratings)`. -/
abbrev BatchRow : Type := String × List (Option Int)

/-- The row the collection loop produces for `username` when its task does not
raise a fatal (non-service) error: its ratings on success, 31 `None`s when a
`ChessRankingsServiceError` was caught. -/
def rowOf (perPlayer : String → Except PyError (List (Option Int))) (username : String) :
    BatchRow :=
  match perPlayer username with
  | .ok ratings => (username, ratings)
  | .error _ => (username, List.replicate 31 none)

/-- The `for future in as_completed(...)` loop: `completionOrder` is the order in
which the futures complete.  A `ChessRankingsServiceError` is caught and turned
into an all-`None` row; any other exception propagates and aborts the batch. -/
def collectRows (perPlayer : String → Except PyError (List (Option Int))) :
    List String → Except PyError (List BatchRow)
  | [] => .ok []
  | u :: us =>
    match perPlayer u with
    | .ok ratings =>
      match collectRows perPlayer us with
      | .ok rest => .ok ((u, ratings) :: rest)
      | .error e => .error e
    | .error (.service _) =>
      match collectRows perPlayer us with
      | .ok rest => .ok ((u, List.replicate 31 none) :: rest)
      | .error e => .error e
    | .error .valueError => .error .valueError

/-- `{username: index for index, username in enumerate(usernames)}`. -/
def usernameOrderDict (usernames : List String) : List (String × Nat) :=
  usernames.enum.foldl (fun m q => mapInsert m q.2 q.1) []

/-- `username_order.get(row[0], 0)`: the sort key of a row. -/
def orderKey (usernames : List String) (u : String) : Nat :=
  (mapGet (usernameOrderDict usernames) u).getD 0

/-- The comparison used by `data_rows.sort(key=...)`. -/
abbrev rowRel (usernames : List String) (a b : BatchRow) : Prop :=
  orderKey usernames a.1 ≤ orderKey usernames b.1

/-- `data_rows.sort(key=lambda row: username_order.get(row[0], 0))` (a stable
sort; `insertionSort` with a non-strict comparison is stable). -/
def sortRows (usernames : List String) (rows : List BatchRow) : List BatchRow :=
  List.insertionSort (rowRel usernames) rows

/-- The collect-then-sort core of the batch method: rows gathered in completion
order, then sorted back into original username order. -/
def batchRows (perPlayer : String → Except PyError (List (Option Int)))
    (usernames completionOrder : List String) : Except PyError (List BatchRow) :=
  match collectRows perPlayer completionOrder with
  | .ok rows => .ok (sortRows usernames rows)
  | .error e => .error e

/-- `generate_rating_csv_for_top_50_classical_players` up to the CSV write:
fetch the leaderboard (errors propagate, the batch is never dispatched), then
run the batch. -/
def generateRatingCsvRows (leaderboardFetch : FetchOutcome UsersPayload)
    (historyFetch : String → FetchOutcome (List Variant)) (today : Int)
    (completionOf : List String → List String) : Except PyError (List BatchRow) :=
  match getTopPlayersUsernames leaderboardFetch with
  | .error e => .error (.service e)
  | .ok usernames =>
    batchRows (fun u => getLast30DaysClassicalRatings (historyFetch u) u today)
      usernames (completionOf usernames)

/-! ### Association-list dict lemmas -/

instance : Std.Antisymm (fun (a b : Int) => a ≤ b) :=
  ⟨fun h1 h2 => le_antisymm h1 h2⟩

theorem mapGet_eq_none_of_forall (k : Int) :
    ∀ (m : RatingMap), (∀ p ∈ m, p.1 ≠ k) → mapGet m k = none := by
  intro m
  induction m with
  | nil => simp [mapGet]
  | cons p rest ih =>
    intro h
    simp only [mapGet]
    rw [if_neg (h p (List.mem_cons_self p rest))]
    exact ih (fun q hq => h q (List.mem_cons_of_mem p hq))

theorem forall_of_mapGet_eq_none (k : Int) :
    ∀ (m : RatingMap), mapGet m k = none → ∀ p ∈ m, p.1 ≠ k := by
  intro m
  induction m with
  | nil => simp
  | cons p rest ih =>
    intro h q hq
    simp only [mapGet] at h
    by_cases hp : p.1 = k
    · rw [if_pos hp] at h; exact absurd h (by simp)
    · rw [if_neg hp] at h
      rcases List.mem_cons.1 hq with rfl | hq2
      · exact hp
      · exact ih h q hq2

theorem mapGet_eq_none_iff (m : RatingMap) (k : Int) :
    mapGet m k = none ↔ k ∉ mapDates m := by
  constructor
  · intro h hk
    obtain ⟨p, hp, hpk⟩ := List.mem_map.1 hk
    exact forall_of_mapGet_eq_none k m h p hp hpk
  · intro h
    refine mapGet_eq_none_of_forall k m (fun p hp hpk => h ?_)
    exact List.mem_map.2 ⟨p, hp, hpk⟩

theorem mapGet_isSome_of_mem {m : RatingMap} {k : Int} (h : k ∈ mapDates m) :
    ∃ r, mapGet m k = some r := by
  cases hg : mapGet m k with
  | none => exact absurd h ((mapGet_eq_none_iff m k).1 hg)
  | some r => exact ⟨r, rfl⟩

theorem updateCarry_of_not_mem {m : RatingMap} {d : Int} (c : Option Int)
    (h : d ∉ mapDates m) : updateCarry m d c = c := by
  unfold updateCarry
  rw [(mapGet_eq_none_iff m d).2 h]

/-! ### C4: the most-recent-before lookup -/

theorem firstBefore_spec_aux (m : RatingMap) (D : Int) :
    (getFirstRatingBeforeDate m D = none ↔ ∀ d ∈ mapDates m, ¬ d < D) ∧
    (∀ r, getFirstRatingBeforeDate m D = some r →
      ∃ d ∈ mapDates m, d < D ∧ mapGet m d = some r ∧
        ∀ e ∈ mapDates m, e < D → e ≤ d) := by
  cases hmax : ((mapDates m).filter (fun d => d < D)).max? with
  | none =>
    have hval : getFirstRatingBeforeDate m D = none := by
      simp only [getFirstRatingBeforeDate]
      rw [hmax]
    rw [List.max?_eq_none_iff] at hmax
    have hno : ∀ d ∈ mapDates m, ¬ d < D := by
      intro d hd hlt
      have hmem : d ∈ (mapDates m).filter (fun d => d < D) := by
        simp [List.mem_filter, hd, hlt]
      rw [hmax] at hmem
      exact absurd hmem (List.not_mem_nil d)
    refine ⟨⟨fun _ => hno, fun _ => hval⟩, fun r hr => ?_⟩
    rw [hval] at hr
    exact absurd hr (by simp)
  | some dmax =>
    have hspec := (List.max?_eq_some_iff (fun _ => le_refl _)
      (fun _ _ => max_choice _ _) (fun _ _ _ => max_le_iff)).1 hmax
    obtain ⟨hmem, hub⟩ := hspec
    rw [List.mem_filter] at hmem
    obtain ⟨hmemDates, hltD⟩ := hmem
    rw [decide_eq_true_eq] at hltD
    obtain ⟨r0, hr0⟩ := mapGet_isSome_of_mem hmemDates
    have hval : getFirstRatingBeforeDate m D = mapGet m dmax := by
      simp only [getFirstRatingBeforeDate]
      rw [hmax]
    constructor
    · rw [hval, hr0]
      constructor
      · intro h; exact absurd h (by simp)
      · intro hall; exact absurd hltD (hall dmax hmemDates)
    · intro r hr
      rw [hval, hr0] at hr
      refine ⟨dmax, hmemDates, hltD, by rw [hr0, hr], ?_⟩
      intro e he helt
      exact hub e (by simp [List.mem_filter, he, helt])

/-- C4.  `_get_first_rating_before_date` returns `None` exactly when no key of
the timeline is strictly before the target date, and otherwise returns the
rating stored at the maximum key strictly before the target date; any rating it
returns is stored at a key strictly before the target date, never at or after it. -/
theorem firstRatingBefore_spec (m : RatingMap) (D : Int) :
    (getFirstRatingBeforeDate m D = none ↔ ∀ d ∈ mapDates m, ¬ d < D) ∧
    (∀ r, getFirstRatingBeforeDate m D = some r →
      ∃ d ∈ mapDates m, d < D ∧ mapGet m d = some r ∧
        ∀ e ∈ mapDates m, e < D → e ≤ d) :=
  firstBefore_spec_aux m D

/-- A small concrete timeline used by witnesses: observations on ordinals 100 and 105. -/
def exMap : RatingMap := [(100, 1500), (105, 1550)]

/-- Witness for C4 at a concrete timeline and date. -/
theorem firstRatingBefore_spec_witness :
    getFirstRatingBeforeDate exMap 103 = some 1500 ∧
    (∃ d ∈ mapDates exMap, d < 103 ∧ mapGet exMap d = some 1500 ∧
      ∀ e ∈ mapDates exMap, e < 103 → e ≤ d) ∧
    getFirstRatingBeforeDate exMap 100 = none := by
  refine ⟨by decide, ?_, ?_⟩
  · exact (firstRatingBefore_spec exMap 103).2 1500 (by decide)
  · exact (firstRatingBefore_spec exMap 100).1.2 (by decide)

/-! ### The 31-day window and the fill loop -/

theorem last30Days_length (t : Int) : (last30Days t).length = 31 := by
  unfold last30Days
  rw [List.length_map, List.length_reverse, List.length_range]

theorem last30Days_getD (t : Int) (i : Nat) (h : i < 31) :
    (last30Days t).getD i 0 = t - 30 + (i : Int) := by
  have hlen : i < (last30Days t).length := by rw [last30Days_length]; exact h
  rw [List.getD_eq_getElem?_getD, List.getElem?_eq_getElem hlen, Option.getD_some]
  unfold last30Days
  rw [List.getElem_map, List.getElem_reverse, List.getElem_range, List.length_range]
  omega

theorem forwardFill_length (m : RatingMap) :
    ∀ (ds : List Int) (c : Option Int), (forwardFill m c ds).length = ds.length := by
  intro ds
  induction ds with
  | nil => intro c; rfl
  | cons d ds ih => intro c; simp [forwardFill, ih]

theorem forwardFill_getD_succ (m : RatingMap) :
    ∀ (ds : List Int) (c : Option Int) (i : Nat), i + 1 < ds.length →
      (forwardFill m c ds).getD (i + 1) none =
        updateCarry m (ds.getD (i + 1) 0) ((forwardFill m c ds).getD i none) := by
  intro ds
  induction ds with
  | nil => intro c i h; simp at h
  | cons d ds ih =>
    intro c i h
    cases i with
    | zero =>
      cases ds with
      | nil => simp at h
      | cons e ds2 => rfl
    | succ j =>
      have h2 : j + 1 < ds.length := by
        simpa using h
      simp only [forwardFill, List.getD_cons_succ]
      exact ih _ j h2

theorem generate_length (m : RatingMap) (t : Int) :
    (generateLast30DaysRatings m t).length = 31 := by
  simp only [generateLast30DaysRatings]
  rw [forwardFill_length, last30Days_length]

theorem generate_getD_succ (m : RatingMap) (t : Int) (i : Nat) (h : i + 1 < 31) :
    (generateLast30DaysRatings m t).getD (i + 1) none =
      updateCarry m ((last30Days t).getD (i + 1) 0)
        ((generateLast30DaysRatings m t).getD i none) := by
  simp only [generateLast30DaysRatings]
  exact forwardFill_getD_succ m (last30Days t) _ i (by rw [last30Days_length]; exact h)

/-- C1.  Forward fill: at any window position after the first, if the timeline
has no observation on that position's calendar date, the generated rating
equals the previous position's rating. -/
theorem forwardFill_no_observation_carries (m : RatingMap) (t : Int) (i : Nat)
    (h : i + 1 < 31) (hno : (last30Days t).getD (i + 1) 0 ∉ mapDates m) :
    (generateLast30DaysRatings m t).getD (i + 1) none =
      (generateLast30DaysRatings m t).getD i none := by
  rw [generate_getD_succ m t i h, updateCarry_of_not_mem _ hno]

/-- Witness for C1: timeline `exMap`, reference date 131 (window 101..131);
day 104 (window position 3) has no observation, so position 3 repeats position 2. -/
theorem forwardFill_no_observation_carries_witness :
    2 + 1 < 31 ∧ (last30Days 131).getD 3 0 ∉ mapDates exMap ∧
    (generateLast30DaysRatings exMap 131).getD 3 none =
      (generateLast30DaysRatings exMap 131).getD 2 none :=
  ⟨by decide, by decide,
    forwardFill_no_observation_carries exMap 131 2 (by decide) (by decide)⟩

/-! ### Calendar correctness of consecutive ordinals -/

theorem daysBeforeMonth_succ (y m : Nat) (h : 1 ≤ m) :
    daysBeforeMonth y (m + 1) = daysBeforeMonth y m + daysInMonth y m := by
  cases m with
  | zero => exact absurd h (by decide)
  | succ k => rfl

theorem daysInMonth_twelve (y : Nat) : daysInMonth y 12 = 31 := rfl

theorem daysInYear_split (y : Nat) :
    daysBeforeMonth y 12 + daysInMonth y 12 = 365 + (if isLeapYear y then 1 else 0) := by
  have e12 : daysBeforeMonth y 12 = daysBeforeMonth y 11 + daysInMonth y 11 :=
    daysBeforeMonth_succ y 11 (by decide)
  have e11 : daysBeforeMonth y 11 = daysBeforeMonth y 10 + daysInMonth y 10 :=
    daysBeforeMonth_succ y 10 (by decide)
  have e10 : daysBeforeMonth y 10 = daysBeforeMonth y 9 + daysInMonth y 9 :=
    daysBeforeMonth_succ y 9 (by decide)
  have e9 : daysBeforeMonth y 9 = daysBeforeMonth y 8 + daysInMonth y 8 :=
    daysBeforeMonth_succ y 8 (by decide)
  have e8 : daysBeforeMonth y 8 = daysBeforeMonth y 7 + daysInMonth y 7 :=
    daysBeforeMonth_succ y 7 (by decide)
  have e7 : daysBeforeMonth y 7 = daysBeforeMonth y 6 + daysInMonth y 6 :=
    daysBeforeMonth_succ y 6 (by decide)
  have e6 : daysBeforeMonth y 6 = daysBeforeMonth y 5 + daysInMonth y 5 :=
    daysBeforeMonth_succ y 5 (by decide)
  have e5 : daysBeforeMonth y 5 = daysBeforeMonth y 4 + daysInMonth y 4 :=
    daysBeforeMonth_succ y 4 (by decide)
  have e4 : daysBeforeMonth y 4 = daysBeforeMonth y 3 + daysInMonth y 3 :=
    daysBeforeMonth_succ y 3 (by decide)
  have e3 : daysBeforeMonth y 3 = daysBeforeMonth y 2 + daysInMonth y 2 :=
    daysBeforeMonth_succ y 2 (by decide)
  have e2 : daysBeforeMonth y 2 = daysBeforeMonth y 1 + daysInMonth y 1 :=
    daysBeforeMonth_succ y 1 (by decide)
  have g1 : daysBeforeMonth y 1 = 0 := rfl
  have f1 : daysInMonth y 1 = 31 := rfl
  have f2 : daysInMonth y 2 = if isLeapYear y then 29 else 28 := rfl
  have f3 : daysInMonth y 3 = 31 := rfl
  have f4 : daysInMonth y 4 = 30 := rfl
  have f5 : daysInMonth y 5 = 31 := rfl
  have f6 : daysInMonth y 6 = 30 := rfl
  have f7 : daysInMonth y 7 = 31 := rfl
  have f8 : daysInMonth y 8 = 31 := rfl
  have f9 : daysInMonth y 9 = 30 := rfl
  have f10 : daysInMonth y 10 = 31 := rfl
  have f11 : daysInMonth y 11 = 30 := rfl
  rw [e12, e11, e10, e9, e8, e7, e6, e5, e4, e3, e2, g1,
    f1, f2, f3, f4, f5, f6, f7, f8, f9, f10, f11, daysInMonth_twelve]
  cases isLeapYear y <;> decide

set_option maxHeartbeats 2000000 in
theorem daysBeforeYear_succ (y : Nat) (h : 1 ≤ y) :
    daysBeforeYear (y + 1) =
      daysBeforeYear y + 365 + (if isLeapYear y then 1 else 0) := by
  obtain ⟨z, rfl⟩ : ∃ z, y = z + 1 := ⟨y - 1, by omega⟩
  unfold daysBeforeYear isLeapYear
  split_ifs with hl
  · rw [decide_eq_true_eq] at hl
    omega
  · rw [decide_eq_true_eq] at hl
    push_neg at hl
    omega

theorem civilOrdinal_nextCivil (c : CivilDate) (h : validCivil c) :
    civilOrdinal (nextCivil c) = civilOrdinal c + 1 := by
  obtain ⟨hy, hm1, hm12, hd1, hdM⟩ := h
  unfold nextCivil
  split_ifs with h1 h2
  · simp only [civilOrdinal]
    omega
  · have hd : c.day = daysInMonth c.year c.month := le_antisymm hdM (not_lt.1 h1)
    simp only [civilOrdinal]
    rw [daysBeforeMonth_succ c.year c.month hm1, hd]
    omega
  · have hm : c.month = 12 := le_antisymm hm12 (not_lt.1 h2)
    have hd : c.day = 31 := by
      rw [le_antisymm hdM (not_lt.1 h1), hm, daysInMonth_twelve]
    have h3 := daysBeforeYear_succ c.year hy
    have h4 := daysInYear_split c.year
    have h5 : daysBeforeMonth (c.year + 1) 1 = 0 := rfl
    have h6 := daysInMonth_twelve c.year
    simp only [civilOrdinal, hm, hd, h5]
    rw [h6] at h4
    omega

/-- C2.  The reconstruction always returns exactly 31 entries; the underlying
window is the 31 consecutive calendar days ending at the reference date, in
chronological order, and stepping a window position forward steps the civil
calendar date forward by one day, across month and year boundaries included. -/
theorem window_completeness (m : RatingMap) (t : Int) :
    (generateLast30DaysRatings m t).length = 31 ∧
    (last30Days t).length = 31 ∧
    (last30Days t).getD 0 0 = t - 30 ∧
    (last30Days t).getD 30 0 = t ∧
    (∀ i, i + 1 < 31 →
      (last30Days t).getD (i + 1) 0 = (last30Days t).getD i 0 + 1) ∧
    (∀ i (c : CivilDate), i + 1 < 31 → validCivil c →
      (last30Days t).getD i 0 = (civilOrdinal c : Int) →
      (last30Days t).getD (i + 1) 0 = (civilOrdinal (nextCivil c) : Int)) := by
  have hcons : ∀ i, i + 1 < 31 →
      (last30Days t).getD (i + 1) 0 = (last30Days t).getD i 0 + 1 := by
    intro i hi
    rw [last30Days_getD t (i + 1) hi, last30Days_getD t i (by omega)]
    push_cast
    ring
  refine ⟨generate_length m t, last30Days_length t, ?_, ?_, hcons, ?_⟩
  · simpa using last30Days_getD t 0 (by omega)
  · have h30 := last30Days_getD t 30 (by omega)
    rw [h30]
    norm_num
  · intro i c hi hc heq
    have h1 := hcons i hi
    have h2 := civilOrdinal_nextCivil c hc
    omega

/-- Witness for C2: the window for reference ordinal 738915 (30 days after
2023-12-31, which is ordinal 738885): position 0 sits on 2023-12-31 and
position 1 on 2024-01-01 = ordinal 738886, crossing the year boundary. -/
theorem window_completeness_witness :
    (generateLast30DaysRatings exMap 738915).length = 31 ∧
    (last30Days 738915).getD 1 0 = (last30Days 738915).getD 0 0 + 1 ∧
    (last30Days 738915).getD 1 0 = ((738886 : Nat) : Int) := by
  refine ⟨(window_completeness exMap 738915).1,
    (window_completeness exMap 738915).2.2.2.2.1 0 (by decide), ?_⟩
  have h := (window_completeness exMap 738915).2.2.2.2.2 0 ⟨2023, 12, 31⟩
    (by decide) (by decide) (by decide)
  rw [h]
  decide

/-! ### C3: absent entries characterise missing history -/

theorem generate_getD_zero (m : RatingMap) (t : Int) :
    (generateLast30DaysRatings m t).getD 0 none =
      updateCarry m (t - 30) (getFirstRatingBeforeDate m (t - 30)) := by
  have hstart : (last30Days t).getD 0 0 = t - 30 := by
    simpa using last30Days_getD t 0 (by omega)
  simp only [generateLast30DaysRatings, hstart]
  cases hds : last30Days t with
  | nil =>
    have hlen := last30Days_length t
    rw [hds] at hlen
    simp at hlen
  | cons d ds =>
    have hd : d = t - 30 := by
      rw [hds] at hstart
      simpa using hstart
    simp only [forwardFill, List.getD_cons_zero, hd]
    cases hg : mapGet m (t - 30) with
    | some r => simp [updateCarry, hg]
    | none => simp [updateCarry, hg]

theorem forwardFill_nil_map : ∀ (ds : List Int),
    forwardFill [] none ds = List.replicate ds.length none := by
  intro ds
  induction ds with
  | nil => rfl
  | cons d ds ih => simp [forwardFill, updateCarry, mapGet, ih, List.replicate_succ]

theorem generate_empty (t : Int) :
    generateLast30DaysRatings [] t = List.replicate 31 none := by
  have h := forwardFill_nil_map (last30Days t)
  rw [last30Days_length] at h
  simpa [generateLast30DaysRatings, mapGet, getFirstRatingBeforeDate, mapDates] using h

/-- C3.  An entry of the 31-day window is `None` exactly when the timeline has
no observation on or before that entry's date; for the empty timeline every one
of the 31 entries is `None`. -/
theorem absent_iff_no_observation_on_or_before (m : RatingMap) (t : Int) :
    generateLast30DaysRatings [] t = List.replicate 31 none ∧
    ∀ i, i < 31 →
      ((generateLast30DaysRatings m t).getD i none = none ↔
        ∀ d ∈ mapDates m, ¬ d ≤ (last30Days t).getD i 0) := by
  refine ⟨generate_empty t, ?_⟩
  intro i
  induction i with
  | zero =>
    intro _
    rw [generate_getD_zero m t, last30Days_getD t 0 (by omega)]
    cases hg : mapGet m (t - 30) with
    | some r =>
      simp only [updateCarry, hg]
      constructor
      · intro hcontra; exact absurd hcontra (by simp)
      · intro hall
        have hmem : (t - 30) ∈ mapDates m := by
          by_contra hx
          rw [(mapGet_eq_none_iff m (t - 30)).2 hx] at hg
          exact absurd hg (by simp)
        exact absurd (by omega : (t - 30) ≤ t - 30 + ((0 : Nat) : Int))
          (hall (t - 30) hmem)
    | none =>
      simp only [updateCarry, hg]
      rw [(firstBefore_spec_aux m (t - 30)).1]
      have hnotmem : (t - 30) ∉ mapDates m := (mapGet_eq_none_iff m (t - 30)).1 hg
      constructor
      · intro h d hd hle
        by_cases he : d = t - 30
        · exact hnotmem (he ▸ hd)
        · exact h d hd (by omega)
      · intro h d hd hlt
        exact h d hd (by omega)
  | succ j ih =>
    intro hj
    have hj31 : j < 31 := by omega
    have ihj := ih hj31
    rw [last30Days_getD t j hj31] at ihj
    rw [generate_getD_succ m t j hj, last30Days_getD t (j + 1) hj]
    cases hg : mapGet m (t - 30 + ((j + 1 : Nat) : Int)) with
    | some r =>
      simp only [updateCarry, hg]
      constructor
      · intro hcontra; exact absurd hcontra (by simp)
      · intro hall
        have hmem : (t - 30 + ((j + 1 : Nat) : Int)) ∈ mapDates m := by
          by_contra hx
          rw [(mapGet_eq_none_iff _ _).2 hx] at hg
          exact absurd hg (by simp)
        exact absurd (le_refl _) (hall _ hmem)
    | none =>
      simp only [updateCarry, hg]
      rw [ihj]
      have hnotmem : (t - 30 + ((j + 1 : Nat) : Int)) ∉ mapDates m :=
        (mapGet_eq_none_iff _ _).1 hg
      constructor
      · intro h d hd hle
        by_cases he : d = t - 30 + ((j + 1 : Nat) : Int)
        · exact hnotmem (he ▸ hd)
        · exact h d hd (by omega)
      · intro h d hd hle
        exact h d hd (by omega)

/-- Witness for C3: with timeline `exMap` (observations at 100 and 105) and
reference date 131, position 0 (date 101) is filled by backfill from 100, so it
is not `None`; with the empty timeline it is `None`. -/
theorem absent_iff_no_observation_on_or_before_witness :
    generateLast30DaysRatings [] 131 = List.replicate 31 none ∧
    ¬ ((generateLast30DaysRatings exMap 131).getD 0 none = none) ∧
    ((generateLast30DaysRatings [] 131).getD 0 none = none) := by
  refine ⟨(absent_iff_no_observation_on_or_before exMap 131).1, ?_, ?_⟩
  · intro h
    have := ((absent_iff_no_observation_on_or_before exMap 131).2 0 (by decide)).1 h
    exact absurd (by decide : ((100 : Int) ≤ (last30Days 131).getD 0 0))
      (this 100 (by decide))
  · exact ((absent_iff_no_observation_on_or_before [] 131).2 0 (by decide)).2
      (by intro d hd; simp [mapDates] at hd)

/-! ### C7: building the date→rating mapping -/

theorem mapGet_mapInsert {κ ν : Type} [DecidableEq κ] :
    ∀ (m : List (κ × ν)) (k : κ) (v : ν) (k2 : κ),
      mapGet (mapInsert m k v) k2 = if k2 = k then some v else mapGet m k2 := by
  intro m
  induction m with
  | nil =>
    intro k v k2
    simp only [mapInsert, mapGet]
    by_cases h : k = k2
    · rw [if_pos h, if_pos h.symm]
    · rw [if_neg h, if_neg (fun h2 => h h2.symm)]
  | cons p rest ih =>
    intro k v k2
    simp only [mapInsert]
    by_cases hp : p.1 = k
    · rw [if_pos hp]
      simp only [mapGet]
      by_cases h2 : k = k2
      · rw [if_pos h2, if_pos h2.symm]
      · rw [if_neg h2, if_neg (fun h => h2 h.symm),
          if_neg (fun h => h2 (hp.symm.trans h))]
    · rw [if_neg hp]
      simp only [mapGet]
      by_cases h2 : p.1 = k2
      · have hk2 : ¬ k2 = k := fun h => hp (h2.trans h)
        rw [if_pos h2]
        rw [if_neg hk2]
        rw [if_pos h2]
      · rw [if_neg h2, ih]
        rw [if_neg h2]

theorem mapGet_foldl_insert {β κ ν : Type} [DecidableEq κ]
    (qkey : β → κ) (qval : β → ν) :
    ∀ (L : List β) (m0 : List (κ × ν)) (k : κ),
      mapGet (L.foldl (fun acc q => mapInsert acc (qkey q) (qval q)) m0) k =
        match L.reverse.find? (fun q => decide (qkey q = k)) with
        | some q => some (qval q)
        | none => mapGet m0 k := by
  intro L
  induction L with
  | nil => intro m0 k; rfl
  | cons q L ih =>
    intro m0 k
    simp only [List.foldl_cons, List.reverse_cons, List.find?_append]
    rw [ih]
    cases hfind : L.reverse.find? (fun q => decide (qkey q = k)) with
    | some q2 => simp [Option.or]
    | none =>
      simp only [Option.or]
      rw [mapGet_mapInsert]
      by_cases hq : qkey q = k
      · rw [if_pos hq.symm]
        have hf : List.find? (fun q2 => decide (qkey q2 = k)) [q] = some q := by
          simp [List.find?, hq]
        rw [hf]
      · rw [if_neg (fun h => hq h.symm)]
        have hf : List.find? (fun q2 => decide (qkey q2 = k)) [q] = none := by
          simp [List.find?, hq]
        rw [hf]

theorem buildAux_error_of_invalid :
    ∀ (ps : List RawPoint) (m : RatingMap),
      (∃ p ∈ ps, validYMD p.year (p.month + 1) p.day = false) →
      buildAux m ps = .error .valueError := by
  intro ps
  induction ps with
  | nil => intro m h; simp at h
  | cons p ps ih =>
    intro m h
    simp only [buildAux]
    by_cases hv : validYMD p.year (p.month + 1) p.day = true
    · rw [if_pos hv]
      apply ih
      rcases h with ⟨q, hq, hqv⟩
      rcases List.mem_cons.1 hq with rfl | hq2
      · rw [hv] at hqv; exact absurd hqv (by simp)
      · exact ⟨q, hq2, hqv⟩
    · rw [if_neg hv]

theorem buildAux_ok_of_valid :
    ∀ (ps : List RawPoint) (m : RatingMap),
      (∀ p ∈ ps, validYMD p.year (p.month + 1) p.day = true) →
      buildAux m ps =
        .ok (ps.foldl (fun acc p => mapInsert acc (pointDate p) p.rating) m) := by
  intro ps
  induction ps with
  | nil => intro m _; rfl
  | cons p ps ih =>
    intro m h
    simp only [buildAux, List.foldl_cons]
    rw [if_pos (h p (List.mem_cons_self p ps))]
    exact ih _ (fun q hq => h q (List.mem_cons_of_mem p hq))

/-- C7.  Building the date→rating mapping fails (raising the `ValueError` that
realises the MalformedObservationError kind, rather than silently dropping the
entry) whenever some observation's year, month+1, day do not form a valid
calendar date; when all observations are valid the build succeeds and the value
stored at each date is the rating of the *last* observation with that date
(later observations overwrite earlier ones). -/
theorem build_mapping_spec (history : List RawPoint) :
    ((∃ p ∈ history, validYMD p.year (p.month + 1) p.day = false) →
      buildDateToRatingMapping history = .error .valueError) ∧
    ((∀ p ∈ history, validYMD p.year (p.month + 1) p.day = true) →
      ∃ m, buildDateToRatingMapping history = .ok m ∧
        ∀ d : Int, mapGet m d =
          (history.reverse.find? (fun p => decide (pointDate p = d))).map
            (fun p => p.rating)) := by
  constructor
  · intro h
    exact buildAux_error_of_invalid history [] h
  · intro h
    refine ⟨_, buildAux_ok_of_valid history [] h, ?_⟩
    intro d
    rw [mapGet_foldl_insert (fun p => pointDate p) (fun p => p.rating) history [] d]
    cases history.reverse.find? (fun p => decide (pointDate p = d)) with
    | some q => rfl
    | none => rfl

/-- Witness for C7: a Feb 31 observation makes the build fail; two valid
observations on the same date (2024-01-15, ordinal 738900) keep the later
rating 1520. -/
theorem build_mapping_spec_witness :
    buildDateToRatingMapping [⟨2023, 1, 31, 1500⟩] = .error .valueError ∧
    ∃ m, buildDateToRatingMapping [⟨2024, 0, 15, 1500⟩, ⟨2024, 0, 15, 1520⟩] = .ok m ∧
      mapGet m 738900 = some 1520 := by
  constructor
  · exact (build_mapping_spec [⟨2023, 1, 31, 1500⟩]).1
      ⟨⟨2023, 1, 31, 1500⟩, by decide, by decide⟩
  · obtain ⟨m, hm, hmap⟩ :=
      (build_mapping_spec [⟨2024, 0, 15, 1500⟩, ⟨2024, 0, 15, 1520⟩]).2 (by decide)
    refine ⟨m, hm, ?_⟩
    rw [hmap 738900]
    decide

/-! ### C8: rating-history fetch error conditions -/

/-- Counterexample to C8 as stated: when the provider returns an *empty* (but
present) history payload, `_get_player_rating_history` does not raise
`RatingHistoryNotFoundError` — it returns the empty list unchanged, so the
"absent **or empty** payload" condition of the claim is wrong. -/
theorem empty_history_payload_accepted :
    getPlayerRatingHistory (.success (some [])) "alice" = .ok [] ∧
    getPlayerRatingHistory (.success (some [])) "alice" ≠
      .error (.ratingHistoryNotFound "alice") := by
  exact ⟨rfl, by decide⟩

/-- C8 (amended).  `_get_player_rating_history` raises
`RatingHistoryNotFoundError(username)` exactly when the provider returns an
*absent* (`None`) payload; a transport failure raises the `APIError`
(ProviderError) kind instead; an empty-but-present payload passes this stage
and only fails later, at category extraction, with
`ClassicalRatingNotFoundError`. -/
theorem ratingHistoryNotFound_iff_absent_payload
    (fetch : FetchOutcome (List Variant)) (u : String) :
    (getPlayerRatingHistory fetch u = .error (.ratingHistoryNotFound u) ↔
      fetch = .success none) ∧
    (∀ url, fetch = .failure url →
      getPlayerRatingHistory fetch u = .error (.apiError url)) ∧
    extractClassicalRatingHistory [] u = .error (.classicalRatingNotFound u) := by
  refine ⟨?_, ?_, rfl⟩
  · cases fetch with
    | failure url => simp [getPlayerRatingHistory]
    | success data =>
      cases data with
      | none => simp [getPlayerRatingHistory]
      | some d => simp [getPlayerRatingHistory]
  · intro url heq
    subst heq
    rfl

/-- Witness for the amended C8 at concrete fetch outcomes. -/
theorem ratingHistoryNotFound_iff_absent_payload_witness :
    getPlayerRatingHistory (.success none) "alice" =
      .error (.ratingHistoryNotFound "alice") ∧
    getPlayerRatingHistory (.failure "historyUrl") "alice" =
      .error (.apiError "historyUrl") :=
  ⟨(ratingHistoryNotFound_iff_absent_payload (.success none) "alice").1.2 rfl,
    (ratingHistoryNotFound_iff_absent_payload (.failure "historyUrl") "alice").2.1
      "historyUrl" rfl⟩

/-! ### C9 and C10: leaderboard retrieval -/

/-- The extraction the source performs on each leaderboard entry
(`player.get('username')` kept only when present and truthy). -/
def keepUsername (p : Player) : Option String :=
  match p.username with
  | some s => if s = "" then none else some s
  | none => none

theorem usernames_filterMap_eq : ∀ (players : List Player),
    players.filterMap keepUsername =
      (players.filter (fun p => p.username.getD "" ≠ "")).map
        (fun p => p.username.getD "") := by
  intro players
  induction players with
  | nil => rfl
  | cons p rest ih =>
    cases hu : p.username with
    | none => simp [List.filterMap_cons, List.filter_cons, keepUsername, hu, ih]
    | some s =>
      by_cases hs : s = ""
      · simp [List.filterMap_cons, List.filter_cons, keepUsername, hu, hs, ih]
      · simp [List.filterMap_cons, List.filter_cons, keepUsername, hu, hs, ih]

theorem getTop_nonempty_ok (players : List Player) (h : players ≠ []) :
    getTopPlayersUsernames (.success (some ⟨some players⟩)) =
      .ok ((players.filter (fun p => p.username.getD "" ≠ "")).map
        (fun p => p.username.getD "")) := by
  simp only [getTopPlayersUsernames]
  rw [if_neg h]
  rw [show (fun (p : Player) =>
      match p.username with
      | some s => if s = "" then none else some s
      | none => none) = keepUsername from rfl]
  rw [usernames_filterMap_eq]

/-- C9.  The leaderboard retrieval raises `PlayerNotFoundError` (the
NoPlayersFoundError kind) exactly when the provider body is absent, lacks the
`users` key, or carries an empty player list; any leaderboard error makes the
whole CSV generation fail before the batch is dispatched; a non-empty player
list yields, without error, the present-and-non-empty usernames in provider
order. -/
theorem noPlayersFound_spec (fetch : FetchOutcome UsersPayload) :
    (getTopPlayersUsernames fetch = .error .playerNotFound ↔
      (fetch = .success none ∨
        ∃ pl, fetch = .success (some pl) ∧ (pl.users = none ∨ pl.users = some []))) ∧
    (∀ e, getTopPlayersUsernames fetch = .error e →
      ∀ historyFetch today completionOf,
        generateRatingCsvRows fetch historyFetch today completionOf =
          .error (.service e)) ∧
    (∀ pl players, fetch = .success (some pl) → pl.users = some players →
      players ≠ [] →
      getTopPlayersUsernames fetch =
        .ok ((players.filter (fun p => p.username.getD "" ≠ "")).map
          (fun p => p.username.getD ""))) := by
  refine ⟨?_, ?_, ?_⟩
  · cases fetch with
    | failure url => simp [getTopPlayersUsernames]
    | success data =>
      cases data with
      | none => simp [getTopPlayersUsernames]
      | some pl =>
        cases hu : pl.users with
        | none => simp [getTopPlayersUsernames, hu]
        | some players =>
          by_cases hp : players = []
          · subst hp
            simp [getTopPlayersUsernames, hu]
          · rw [show getTopPlayersUsernames (.success (some pl)) =
                getTopPlayersUsernames (.success (some ⟨some players⟩)) from by
                  cases pl with
                  | mk users => cases hu; rfl]
            rw [getTop_nonempty_ok players hp]
            simp [hu, hp]
  · intro e he historyFetch today completionOf
    simp [generateRatingCsvRows, he]
  · intro pl players heq hu hp
    subst heq
    rw [show (FetchOutcome.success (some pl) : FetchOutcome UsersPayload) =
        .success (some ⟨some players⟩) from by
          cases pl with
          | mk users => cases hu; rfl]
    exact getTop_nonempty_ok players hp

/-- Witness for C9: `{"users": []}` raises the error and the batch is never
dispatched; a singleton user list is returned in order. -/
theorem noPlayersFound_spec_witness :
    getTopPlayersUsernames (.success (some ⟨some []⟩)) = .error .playerNotFound ∧
    generateRatingCsvRows (.success (some ⟨some []⟩)) (fun _ => .success none) 0
      (fun us => us) = .error (.service .playerNotFound) ∧
    getTopPlayersUsernames (.success (some ⟨some [⟨some "magnus"⟩]⟩)) =
      .ok ["magnus"] := by
  refine ⟨?_, ?_, ?_⟩
  · exact (noPlayersFound_spec (.success (some ⟨some []⟩))).1.2
      (Or.inr ⟨⟨some []⟩, rfl, Or.inr rfl⟩)
  · exact (noPlayersFound_spec (.success (some ⟨some []⟩))).2.1 .playerNotFound
      ((noPlayersFound_spec (.success (some ⟨some []⟩))).1.2
        (Or.inr ⟨⟨some []⟩, rfl, Or.inr rfl⟩))
      (fun _ => .success none) 0 (fun us => us)
  · have h := (noPlayersFound_spec (.success (some ⟨some [⟨some "magnus"⟩]⟩))).2.2
      ⟨some [⟨some "magnus"⟩]⟩ [⟨some "magnus"⟩] rfl rfl (by decide)
    rw [h]
    decide

/-- C10.  For a non-empty provider player list, the leaderboard retrieval
silently keeps only the entries whose username is present and non-empty (in
provider order), so it can return fewer entries than requested without raising
any error. -/
theorem leaderboard_drops_blank_usernames (players : List Player)
    (h : players ≠ []) :
    getTopPlayersUsernames (.success (some ⟨some players⟩)) =
      .ok ((players.filter (fun p => p.username.getD "" ≠ "")).map
        (fun p => p.username.getD "")) ∧
    ((players.filter (fun p => p.username.getD "" ≠ "")).map
      (fun p => p.username.getD "")).length ≤ players.length := by
  refine ⟨getTop_nonempty_ok players h, ?_⟩
  rw [List.length_map]
  exact List.length_filter_le _ players

/-- Witness for C10: of three provider entries (one missing username, one
empty, one valid), only `"x"` survives — one username despite three requested
entries, and no error. -/
theorem leaderboard_drops_blank_usernames_witness :
    getTopPlayersUsernames
        (.success (some ⟨some [⟨none⟩, ⟨some ""⟩, ⟨some "x"⟩]⟩)) = .ok ["x"] ∧
    (["x"] : List String).length < 3 := by
  constructor
  · have h := (leaderboard_drops_blank_usernames
      [⟨none⟩, ⟨some ""⟩, ⟨some "x"⟩] (by decide)).1
    rw [h]
    decide
  · decide

/-! ### C5: per-task error handling in the batch -/

theorem rowOf_fst (p : String → Except PyError (List (Option Int))) (u : String) :
    (rowOf p u).1 = u := by
  unfold rowOf
  cases p u with
  | ok r => rfl
  | error e => rfl

theorem rowOf_service (p : String → Except PyError (List (Option Int))) (u : String)
    (e : ChessError) (h : p u = .error (.service e)) :
    rowOf p u = (u, List.replicate 31 none) := by
  unfold rowOf
  rw [h]

theorem collect_ok_of_nonfatal (p : String → Except PyError (List (Option Int))) :
    ∀ (co : List String), (∀ u ∈ co, p u ≠ .error .valueError) →
      collectRows p co = .ok (co.map (rowOf p)) := by
  intro co
  induction co with
  | nil => intro _; rfl
  | cons u us ih =>
    intro h
    have hrest := ih (fun v hv => h v (List.mem_cons_of_mem u hv))
    simp only [collectRows, List.map_cons]
    cases hp : p u with
    | ok r =>
      have hrow : rowOf p u = (u, r) := by unfold rowOf; rw [hp]
      rw [hrest, hrow]
    | error e =>
      cases e with
      | service s => rw [hrest, rowOf_service p u s hp]
      | valueError => exact absurd hp (h u (List.mem_cons_self u us))

theorem collect_error_of_fatal (p : String → Except PyError (List (Option Int))) :
    ∀ (co : List String), (∃ u ∈ co, p u = .error .valueError) →
      collectRows p co = .error .valueError := by
  intro co
  induction co with
  | nil => intro h; simp at h
  | cons u us ih =>
    intro h
    simp only [collectRows]
    cases hp : p u with
    | ok r =>
      have hex : ∃ v ∈ us, p v = .error .valueError := by
        rcases h with ⟨v, hv, hpv⟩
        rcases List.mem_cons.1 hv with rfl | hv2
        · rw [hp] at hpv; exact absurd hpv (by simp)
        · exact ⟨v, hv2, hpv⟩
      rw [ih hex]
    | error e =>
      cases e with
      | service s =>
        have hex : ∃ v ∈ us, p v = .error .valueError := by
          rcases h with ⟨v, hv, hpv⟩
          rcases List.mem_cons.1 hv with rfl | hv2
          · rw [hp] at hpv; exact absurd hpv (by simp)
          · exact ⟨v, hv2, hpv⟩
        rw [ih hex]
      | valueError => rfl

theorem collect_ok_inv (p : String → Except PyError (List (Option Int)))
    (co : List String) (rows : List BatchRow)
    (h : collectRows p co = .ok rows) : rows = co.map (rowOf p) := by
  by_cases hf : ∃ u ∈ co, p u = .error .valueError
  · rw [collect_error_of_fatal p co hf] at h
    exact absurd h (by simp)
  · push_neg at hf
    rw [collect_ok_of_nonfatal p co hf] at h
    injection h with h2
    exact h2.symm

/-- A provider where player `"bob"` has a malformed Classical observation
(2023, zero-indexed month 1, day 31 — i.e. February 31) and `"alice"` a valid
empty Classical history. -/
def exHistoryFetch : String → FetchOutcome (List Variant) := fun u =>
  if u = "bob" then .success (some [⟨some "Classical", some [⟨2023, 1, 31, 1500⟩]⟩])
  else .success (some [⟨some "Classical", some []⟩])

/-- Counterexample to C5 as stated: a malformed observation raises Python's
`ValueError`, which is *not* a `ChessRankingsServiceError`, so the batch loop
does not catch it: bob's row is not replaced by an all-absent row — the whole
batch run aborts with the error instead. -/
theorem malformed_observation_aborts_batch :
    getLast30DaysClassicalRatings (exHistoryFetch "bob") "bob" 738900 =
      .error .valueError ∧
    collectRows
      (fun u => getLast30DaysClassicalRatings (exHistoryFetch u) u 738900)
      ["alice", "bob"] = .error .valueError ∧
    batchRows (fun u => getLast30DaysClassicalRatings (exHistoryFetch u) u 738900)
      ["alice", "bob"] ["alice", "bob"] = .error .valueError :=
  ⟨by decide, by decide, by decide⟩

/-- C5 (amended).  The batch loop catches exactly the
`ChessRankingsServiceError` kinds (transport, missing history, missing
category): when no task raises a non-service error, every task produces a row,
a service-failing task's row is the all-absent row of 31 `None`s, and the batch
completes; but when some task raises the non-service `ValueError` of a
malformed observation, the batch run aborts with that error. -/
theorem service_errors_caught_in_batch
    (p : String → Except PyError (List (Option Int))) (completionOrder : List String) :
    ((∀ u ∈ completionOrder, p u ≠ .error .valueError) →
      collectRows p completionOrder = .ok (completionOrder.map (rowOf p)) ∧
      ∀ u ∈ completionOrder, ∀ e, p u = .error (.service e) →
        rowOf p u = (u, List.replicate 31 none)) ∧
    ((∃ u ∈ completionOrder, p u = .error .valueError) →
      collectRows p completionOrder = .error .valueError) := by
  constructor
  · intro h
    exact ⟨collect_ok_of_nonfatal p completionOrder h,
      fun u _ e he => rowOf_service p u e he⟩
  · exact collect_error_of_fatal p completionOrder

/-- A per-player task that always fails with a service error. -/
def exServicePlayer : String → Except PyError (List (Option Int)) :=
  fun u => .error (.service (.ratingHistoryNotFound u))

/-- Witness for the amended C5: a service failure yields the all-absent row
and the batch completes. -/
theorem service_errors_caught_in_batch_witness :
    collectRows exServicePlayer ["alice"] =
      .ok [("alice", List.replicate 31 none)] := by
  have h := (service_errors_caught_in_batch exServicePlayer ["alice"]).1 (by decide)
  rw [h.1]
  rfl

/-! ### C6: output order of the batch -/

instance (us : List String) : IsTotal BatchRow (rowRel us) :=
  ⟨fun a b => Nat.le_total (orderKey us a.1) (orderKey us b.1)⟩

instance (us : List String) : IsTrans BatchRow (rowRel us) :=
  ⟨fun _ _ _ hab hbc => Nat.le_trans hab hbc⟩

theorem find?_eq_of_unique {α : Type} (p : α → Bool) :
    ∀ (L : List α) (x : α), x ∈ L → p x = true →
      (∀ y ∈ L, p y = true → y = x) → L.find? p = some x := by
  intro L
  induction L with
  | nil => intro x hx _ _; exact absurd hx (List.not_mem_nil x)
  | cons a L ih =>
    intro x hx hpx huniq
    by_cases hpa : p a = true
    · rw [List.find?_cons_of_pos L hpa, huniq a (List.mem_cons_self a L) hpa]
    · rw [List.find?_cons_of_neg L hpa]
      have hxL : x ∈ L := by
        rcases List.mem_cons.1 hx with rfl | hx2
        · exact absurd hpx hpa
        · exact hx2
      exact ih x hxL hpx (fun y hy hpy => huniq y (List.mem_cons_of_mem a hy) hpy)

theorem orderDict_get (l : List String) (u : String) :
    mapGet (usernameOrderDict l) u =
      (l.enum.reverse.find? (fun q => decide (q.2 = u))).map (fun q => q.1) := by
  unfold usernameOrderDict
  rw [mapGet_foldl_insert (fun (q : Nat × String) => q.2)
    (fun (q : Nat × String) => q.1) l.enum [] u]
  cases l.enum.reverse.find? (fun q => decide (q.2 = u)) with
  | some q => rfl
  | none => rfl

theorem orderKey_get (l : List String) (hnd : l.Nodup) (i : Nat) (hi : i < l.length) :
    orderKey l l[i] = i := by
  unfold orderKey
  rw [orderDict_get]
  have hfind : l.enum.reverse.find? (fun q => decide (q.2 = l[i])) = some (i, l[i]) := by
    apply find?_eq_of_unique
    · rw [List.mem_reverse, List.mem_iff_getElem]
      refine ⟨i, by rw [List.enum_length]; exact hi, ?_⟩
      rw [List.getElem_enum]
    · simp
    · intro y hy hpy
      rw [List.mem_reverse, List.mem_iff_getElem] at hy
      obtain ⟨j, hj, hyj⟩ := hy
      rw [List.getElem_enum] at hyj
      have hjl : j < l.length := by rw [List.enum_length] at hj; exact hj
      subst hyj
      rw [decide_eq_true_eq] at hpy
      have hpy2 : l[j] = l[i] := hpy
      have hj_eq : j = i := (List.Nodup.getElem_inj_iff hnd).1 hpy2
      subst hj_eq
      rfl
  rw [hfind]
  rfl

theorem perm_sorted_nodupkeys_eq {α : Type} (key : α → Nat) :
    ∀ (l1 l2 : List α), l1.Perm l2 →
      l1.Pairwise (fun a b => key a ≤ key b) →
      l2.Pairwise (fun a b => key a ≤ key b) →
      (l1.map key).Nodup → l1 = l2 := by
  intro l1
  induction l1 with
  | nil =>
    intro l2 hp _ _ _
    exact hp.nil_eq
  | cons a t1 ih =>
    intro l2 hp hs1 hs2 hnd
    cases l2 with
    | nil => exact absurd hp.symm.nil_eq (by simp)
    | cons b t2 =>
      have hb : b = a := by
        by_contra hne
        have hbmem : b ∈ a :: t1 := hp.symm.subset (List.mem_cons_self b t2)
        have hamem : a ∈ b :: t2 := hp.subset (List.mem_cons_self a t1)
        have hbt1 : b ∈ t1 := by
          rcases List.mem_cons.1 hbmem with h | h
          · exact absurd h hne
          · exact h
        have hat2 : a ∈ t2 := by
          rcases List.mem_cons.1 hamem with h | h
          · exact absurd h.symm hne
          · exact h
        have h1 : key a ≤ key b := (List.pairwise_cons.1 hs1).1 b hbt1
        have h2 : key b ≤ key a := (List.pairwise_cons.1 hs2).1 a hat2
        have hkey : key a = key b := le_antisymm h1 h2
        simp only [List.map_cons] at hnd
        have hmem : key a ∈ t1.map key := List.mem_map.2 ⟨b, hbt1, hkey.symm⟩
        exact absurd hmem (List.nodup_cons.1 hnd).1
      subst hb
      have hpt : t1.Perm t2 := hp.cons_inv
      simp only [List.map_cons] at hnd
      have htl := ih t2 hpt (List.pairwise_cons.1 hs1).2 (List.pairwise_cons.1 hs2).2
        (List.nodup_cons.1 hnd).2
      rw [htl]

/-- Counterexample to C6 as stated: for the duplicate-containing input
sequence `["a", "b", "a"]`, the dict comprehension keys both `"a"`-rows with
the *last* index 2, so the sort places `"b"` first even under the identity
completion order — the output order `["b", "a", "a"]` differs from the input
order. -/
theorem batch_order_fails_on_duplicate_usernames :
    (batchRows (fun _ => .ok (List.replicate 31 (some 1500)))
        ["a", "b", "a"] ["a", "b", "a"]).map (fun rows => rows.map Prod.fst) =
      .ok ["b", "a", "a"] ∧
    (["b", "a", "a"] : List String) ≠ ["a", "b", "a"] :=
  ⟨by decide, by decide⟩

/-- C6 (amended).  For every *duplicate-free* input username sequence and
every completion order (any permutation of the input), a successful batch
returns its rows ordered exactly as the input sequence. -/
theorem batch_output_order_eq_input_order
    (p : String → Except PyError (List (Option Int)))
    (usernames completionOrder : List String) (rows : List BatchRow)
    (hnd : usernames.Nodup) (hperm : completionOrder.Perm usernames)
    (hok : batchRows p usernames completionOrder = .ok rows) :
    rows.map Prod.fst = usernames := by
  unfold batchRows at hok
  cases hc : collectRows p completionOrder with
  | error e =>
    rw [hc] at hok
    exact absurd hok (by simp)
  | ok rows0 =>
    rw [hc] at hok
    injection hok with hok2
    have h0 : rows0 = completionOrder.map (rowOf p) :=
      collect_ok_inv p completionOrder rows0 hc
    have hpermRows : (sortRows usernames rows0).Perm (usernames.map (rowOf p)) := by
      have h1 : (sortRows usernames rows0).Perm rows0 :=
        List.perm_insertionSort (rowRel usernames) rows0
      have h2 : rows0.Perm (usernames.map (rowOf p)) := by
        rw [h0]
        exact hperm.map (rowOf p)
      exact h1.trans h2
    have hsorted : (sortRows usernames rows0).Pairwise
        (fun a b => orderKey usernames a.1 ≤ orderKey usernames b.1) :=
      List.sorted_insertionSort (rowRel usernames) rows0
    have htargetKeys :
        (usernames.map (rowOf p)).map (fun r => orderKey usernames r.1) =
          List.range usernames.length := by
      apply List.ext_getElem
      · simp
      · intro n h1 h2
        simp only [List.getElem_map, List.getElem_range]
        rw [rowOf_fst]
        exact orderKey_get usernames hnd n (by simpa using h1)
    have hndk : ((usernames.map (rowOf p)).map
        (fun r => orderKey usernames r.1)).Nodup := by
      rw [htargetKeys]
      exact List.nodup_range usernames.length
    have htargetSorted : (usernames.map (rowOf p)).Pairwise
        (fun a b => orderKey usernames a.1 ≤ orderKey usernames b.1) := by
      rw [List.pairwise_iff_getElem]
      intro i j hi hj hij
      simp only [List.getElem_map]
      rw [rowOf_fst, rowOf_fst]
      rw [orderKey_get usernames hnd i (by simpa using hi),
        orderKey_get usernames hnd j (by simpa using hj)]
      omega
    have heq : usernames.map (rowOf p) = sortRows usernames rows0 :=
      perm_sorted_nodupkeys_eq (fun r => orderKey usernames r.1)
        (usernames.map (rowOf p)) (sortRows usernames rows0)
        hpermRows.symm htargetSorted hsorted hndk
    rw [← hok2, ← heq, List.map_map]
    have hid : (Prod.fst ∘ rowOf p) = @id String := by
      funext u
      exact rowOf_fst p u
    rw [hid, List.map_id]

/-- Witness for the amended C6: two distinct usernames collected in reversed
completion order still come out in input order. -/
theorem batch_output_order_eq_input_order_witness :
    batchRows (fun _ => .ok (List.replicate 31 (some 1500))) ["a", "b"] ["b", "a"] =
      .ok [("a", List.replicate 31 (some 1500)), ("b", List.replicate 31 (some 1500))] ∧
    ([("a", List.replicate 31 (some 1500)),
      ("b", List.replicate 31 (some 1500))] : List BatchRow).map Prod.fst =
      ["a", "b"] :=
  ⟨by decide,
    batch_output_order_eq_input_order (fun _ => .ok (List.replicate 31 (some 1500)))
      ["a", "b"] ["b", "a"] _ (by decide) (by decide) (by decide)⟩

end ChessRankings
